import Mathlib

/-! Verification of the multirotor vehicle-parameter module (`vehicle.py`):
propeller blade geometry derived at construction, the conditional 4×N
control-allocation matrix, its Moore–Penrose pseudoinverse, inertia
inversion and the spin-direction default.  Machine floats are modelled by
real numbers; numpy's linear-algebra and broadcasting primitives are
modelled by their documented mathematical semantics, with the exceptions
they can raise made explicit in an `Except` result. -/

namespace Multirotor

/-! ## Definitions -/

/-- Model of `np.arctan2 y x`: the four-quadrant arctangent. -/
noncomputable def arctan2 (y x : ℝ) : ℝ :=
  if 0 < x then Real.arctan (y / x)
  else if x < 0 then
    (if 0 ≤ y then Real.arctan (y / x) + Real.pi else Real.arctan (y / x) - Real.pi)
  else
    (if 0 < y then Real.pi / 2 else if y < 0 then -(Real.pi / 2) else 0)

/-- `MotorParams` of `vehicle.py`: electrical/mechanical motor constants. -/
structure MotorParams where
  k_m : ℝ
  k_e : Option ℝ := none
  k_q : Option ℝ := none

/-- `PropellerParams` of `vehicle.py`: the declared (pre-`__post_init__`)
fields, with the source's defaults. -/
structure PropellerParams where
  moment_of_inertia : ℝ
  diameter : ℝ := 6
  pitch : ℝ := 3
  a : ℝ := 5.7
  b : ℝ := 2
  c : ℝ := 0.0274
  eta : ℝ := 1
  k_thrust : Option ℝ := none
  k_torque : Option ℝ := none
  motor : Option MotorParams := none

/-- The fields `PropellerParams.__post_init__` derives. -/
structure PropellerDerived where
  moment_of_inertia : ℝ
  R : ℝ
  A : ℝ
  theta0 : ℝ
  theta1 : ℝ

/-- `PropellerParams.__post_init__` (vehicle.py lines 48–61): radius from
inches, disc area, root pitch angle and linear pitch taper, with the
source's own parenthesisation. -/
noncomputable def propPostInit (p : PropellerParams) : PropellerDerived :=
  { moment_of_inertia := p.moment_of_inertia
    R := p.diameter * 0.0254
    A := Real.pi * (p.diameter * 0.0254) ^ 2
    theta0 := 2 * arctan2 p.pitch (2 * Real.pi * 3 / 4 * p.diameter / 2)
    theta1 := -4 / 3 * arctan2 p.pitch (2 * Real.pi * 3 / 4 * p.diameter / 2) }

/-- A default propeller as the source builds it: diameter 6, pitch 3, all
other fields at their declared defaults. -/
def sampleProp : PropellerParams :=
  { moment_of_inertia := 1 }

/-- A propeller agreeing with `sampleProp` on diameter and pitch only; every
other field differs. -/
def sampleProp2 : PropellerParams :=
  { moment_of_inertia := 2, a := 4, b := 3, c := 1, eta := 0.5,
    k_thrust := some 1, k_torque := some 1, motor := some { k_m := 1 } }

/-- The exceptions the construction in `VehicleParams.__post_init__` can
propagate.  `singularMatrix` models `np.linalg.LinAlgError` from
`np.linalg.inv` on a singular matrix; `broadcastError` models the
`ValueError` numpy raises for incompatible elementwise shapes;
`indexError` models Python's `IndexError` on out-of-range indexing.
`configurationError` is the error class the spec's taxonomy names for
mismatched sequence lengths; the source never defines or raises it. -/
inductive NpError where
  | singularMatrix
  | broadcastError
  | indexError
  | configurationError
  deriving DecidableEq

/-- Model of numpy elementwise multiplication of two 1-d arrays, including
the broadcasting of a length-1 operand and the `ValueError` on any other
length mismatch. -/
def npMul (a b : List ℝ) : Except NpError (List ℝ) :=
  if a.length = b.length then .ok (List.zipWith (· * ·) a b)
  else if a.length = 1 then .ok (b.map fun w => a.getD 0 0 * w)
  else if b.length = 1 then .ok (a.map fun w => w * b.getD 0 0)
  else .error .broadcastError

/-- Model of the numpy strided slice assignment `arr[start::2] = v` on an
integer vector: every index `i ≥ start` with `i ≡ start (mod 2)` is set to
`v`, the rest keep their value. -/
def npSliceSet2 (l : List ℤ) (start : ℕ) (v : ℤ) : List ℤ :=
  (List.range l.length).map fun i =>
    if start ≤ i ∧ (i - start) % 2 = 0 then v else l.getD i 0

/-- The spin-direction default of `VehicleParams.__post_init__` lines 85–87:
`np.ones(n)`, then `clockwise[::2] = 1`, then `clockwise[1::2] = -1`. -/
def defaultClockwise (n : ℕ) : List ℤ :=
  npSliceSet2 (npSliceSet2 (List.replicate n 1) 0 1) 1 (-1)

/-- `VehicleParams` of `vehicle.py`: the declared (pre-`__post_init__`)
fields, with the source's defaults (`inertia_matrix = np.eye(3)`). -/
structure VehicleParams where
  propellers : List PropellerParams
  angles : List ℝ
  distances : List ℝ
  clockwise : Option (List ℤ) := none
  mass : ℝ := 1
  inertia_matrix : Matrix (Fin 3) (Fin 3) ℝ := 1

/-- The state `VehicleParams.__post_init__` leaves behind on success, for a
vehicle of `n` propellers. -/
structure VehicleState (n : ℕ) where
  inertia_matrix_inverse : Matrix (Fin 3) (Fin 3) ℝ
  clockwise : List ℤ
  alloc : Option (Matrix (Fin 4) (Fin n) ℝ)
  alloc_inverse : Option (Matrix (Fin n) (Fin 4) ℝ)

open Classical in
/-- Model of `np.linalg.inv` on a 3×3 real matrix: raises on a singular
matrix, otherwise returns the inverse. -/
noncomputable def npLinalgInv (M : Matrix (Fin 3) (Fin 3) ℝ) :
    Except NpError (Matrix (Fin 3) (Fin 3) ℝ) :=
  if M.det = 0 then .error .singularMatrix else .ok M⁻¹

section Pinv

variable {E F : Type} [NormedAddCommGroup E] [InnerProductSpace ℝ E]
  [FiniteDimensional ℝ E] [NormedAddCommGroup F] [InnerProductSpace ℝ F]
  [FiniteDimensional ℝ F]

/-- The restriction of a linear map to the orthogonal complement of its
kernel: the bijective core a pseudoinverse inverts. -/
noncomputable def kerOrthRestrict (f : E →ₗ[ℝ] F) :
    ((LinearMap.ker f)ᗮ : Submodule ℝ E) →ₗ[ℝ] F :=
  f.comp (LinearMap.ker f)ᗮ.subtype

lemma kerOrthRestrict_apply (f : E →ₗ[ℝ] F)
    (u : ((LinearMap.ker f)ᗮ : Submodule ℝ E)) :
    kerOrthRestrict f u = f u :=
  rfl

lemma kerOrthRestrict_injective (f : E →ₗ[ℝ] F) :
    Function.Injective (kerOrthRestrict f) := by
  intro x y hxy
  have hxy' : f (x : E) = f (y : E) := hxy
  have hmem : (x : E) - (y : E) ∈ LinearMap.ker f ⊓ (LinearMap.ker f)ᗮ := by
    refine ⟨?_, sub_mem x.2 y.2⟩
    simp [LinearMap.mem_ker, map_sub, hxy']
  have h0 : (x : E) - (y : E) = 0 := by
    rw [Submodule.inf_orthogonal_eq_bot] at hmem
    simpa using hmem
  exact Subtype.ext (sub_eq_zero.mp h0)

lemma kerOrthRestrict_range (f : E →ₗ[ℝ] F) :
    LinearMap.range (kerOrthRestrict f) = LinearMap.range f := by
  rw [kerOrthRestrict, LinearMap.range_comp, Submodule.range_subtype]
  have h1 : Submodule.map f (LinearMap.ker f ⊔ (LinearMap.ker f)ᗮ)
      = Submodule.map f ⊤ := by
    rw [Submodule.sup_orthogonal_of_completeSpace]
  rw [Submodule.map_sup] at h1
  have h2 : Submodule.map f (LinearMap.ker f) = ⊥ := by
    ext w
    simp only [Submodule.mem_map, LinearMap.mem_ker, Submodule.mem_bot]
    constructor
    · rintro ⟨u, hu, rfl⟩; exact hu
    · rintro rfl; exact ⟨0, by simp, by simp⟩
  rw [h2, bot_sup_eq] at h1
  rw [h1, ← LinearMap.range_eq_map]

/-- The bijection from the orthogonal complement of the kernel onto the
range that `kerOrthRestrict` induces. -/
noncomputable def pinvCore (f : E →ₗ[ℝ] F) :
    ((LinearMap.ker f)ᗮ : Submodule ℝ E) ≃ₗ[ℝ] (LinearMap.range f : Submodule ℝ F) :=
  (LinearEquiv.ofInjective (kerOrthRestrict f) (kerOrthRestrict_injective f)).trans
    (LinearEquiv.ofEq _ _ (kerOrthRestrict_range f))

lemma pinvCore_apply (f : E →ₗ[ℝ] F)
    (u : ((LinearMap.ker f)ᗮ : Submodule ℝ E)) :
    ((pinvCore f u : F)) = f u := by
  simp [pinvCore, LinearEquiv.trans_apply, LinearEquiv.coe_ofEq_apply,
    LinearEquiv.ofInjective_apply, kerOrthRestrict_apply]

/-- The Moore–Penrose pseudoinverse of a linear map between real
finite-dimensional inner-product spaces, modelling `np.linalg.pinv`:
orthogonally project onto the range, then invert the bijective core. -/
noncomputable def lmPinv (f : E →ₗ[ℝ] F) : F →ₗ[ℝ] E :=
  ((LinearMap.ker f)ᗮ.subtype.comp (pinvCore f).symm.toLinearMap).comp
    (orthogonalProjection (LinearMap.range f)).toLinearMap

/-- First Penrose identity for `lmPinv`: `f ∘ f⁺ ∘ f = f`. -/
lemma lmPinv_law (f : E →ₗ[ℝ] F) : f.comp ((lmPinv f).comp f) = f := by
  ext v
  have hm : f v ∈ LinearMap.range f := LinearMap.mem_range_self f v
  have hproj : orthogonalProjection (LinearMap.range f) (f v) = ⟨f v, hm⟩ :=
    Subtype.ext (orthogonalProjection_eq_self_iff.mpr hm)
  have happ := pinvCore_apply f ((pinvCore f).symm ⟨f v, hm⟩)
  rw [LinearEquiv.apply_symm_apply] at happ
  simp only [lmPinv, LinearMap.comp_apply, ContinuousLinearMap.coe_coe,
    Submodule.coe_subtype, LinearEquiv.coe_coe, hproj]
  exact happ.symm

end Pinv

/-- Model of `np.linalg.pinv` on a real matrix: the matrix of the
Moore–Penrose pseudoinverse of the linear map the matrix represents on
Euclidean space. -/
noncomputable def npPinv {m n : ℕ} (A : Matrix (Fin m) (Fin n) ℝ) :
    Matrix (Fin n) (Fin m) ℝ :=
  Matrix.toEuclideanLin.symm (lmPinv (Matrix.toEuclideanLin A))

lemma toEuclideanLin_mul {l m n : ℕ} (A : Matrix (Fin l) (Fin m) ℝ)
    (B : Matrix (Fin m) (Fin n) ℝ) :
    Matrix.toEuclideanLin (A * B)
      = (Matrix.toEuclideanLin A).comp (Matrix.toEuclideanLin B) := by
  refine LinearMap.ext fun v => ?_
  simp [Matrix.toEuclideanLin_apply, Matrix.mulVec_mulVec]

/-- Matrix form of the first Penrose identity: `A · A⁺ · A = A` for every
real matrix, with `A⁺ = npPinv A`. -/
lemma npPinv_law {m n : ℕ} (A : Matrix (Fin m) (Fin n) ℝ) :
    A * npPinv A * A = A := by
  apply Matrix.toEuclideanLin.injective
  rw [toEuclideanLin_mul, toEuclideanLin_mul, npPinv,
    LinearEquiv.apply_symm_apply, LinearMap.comp_assoc]
  exact lmPinv_law (Matrix.toEuclideanLin A)

/-- Whether every propeller supplies `k_thrust` and every propeller supplies
`k_torque`: the guard of the allocation branch (vehicle.py lines 91–94). -/
def kFull (props : List PropellerParams) : Bool :=
  props.all (fun p => p.k_thrust.isSome) && props.all (fun p => p.k_torque.isSome)

/-- Propositional form of the allocation guard: every propeller carries a
thrust coefficient and every propeller carries a torque coefficient. -/
def allCoeffs (props : List PropellerParams) : Prop :=
  (∀ p ∈ props, p.k_thrust ≠ none) ∧ (∀ p ∈ props, p.k_torque ≠ none)

/-- The allocation matrix the loop of vehicle.py lines 98–102 fills: column
`i` is `[-k_thrust, k_thrust*x_i, k_thrust*y_i, k_torque*clockwise_i]`. -/
noncomputable def allocMatrix (props : List PropellerParams)
    (x y : List ℝ) (cw : List ℤ) : Matrix (Fin 4) (Fin props.length) ℝ :=
  Matrix.of fun r i =>
    ![ -((props.get i).k_thrust.getD 0),
       (props.get i).k_thrust.getD 0 * x.getD i 0,
       (props.get i).k_thrust.getD 0 * y.getD i 0,
       (props.get i).k_torque.getD 0 * ((cw.getD i 0 : ℤ) : ℝ) ] r

/-- `VehicleParams.__post_init__` (vehicle.py lines 81–107): invert the
inertia matrix (aborting on a singular one), default the spin directions
when `clockwise` is `None`, and — only when every propeller carries both
aerodynamic coefficients — build the 4×N allocation matrix from
`x = distances*sin(angles)`, `y = distances*cos(angles)` and its
pseudoinverse; otherwise leave `alloc` and `alloc_inverse` absent. -/
noncomputable def vehiclePostInit (vp : VehicleParams) :
    Except NpError (VehicleState vp.propellers.length) :=
  match npLinalgInv vp.inertia_matrix with
  | .error e => .error e
  | .ok iinv =>
    let cw : List ℤ := vp.clockwise.getD (defaultClockwise vp.propellers.length)
    if kFull vp.propellers then
      match npMul vp.distances (vp.angles.map Real.sin) with
      | .error e => .error e
      | .ok x =>
        match npMul vp.distances (vp.angles.map Real.cos) with
        | .error e => .error e
        | .ok y =>
          if vp.propellers.length ≤ x.length ∧ vp.propellers.length ≤ y.length ∧
              vp.propellers.length ≤ cw.length then
            let A := allocMatrix vp.propellers x y cw
            .ok ⟨iinv, cw, some A, some (npPinv A)⟩
          else .error .indexError
    else .ok ⟨iinv, cw, none, none⟩

/-- A one-propeller vehicle whose propeller carries both aerodynamic
coefficients; all sequence lengths agree. -/
noncomputable def sampleVehicleFull : VehicleParams :=
  { propellers := [sampleProp2], angles := [0], distances := [1],
    clockwise := some [1] }

/-- A one-propeller vehicle whose propeller lacks both aerodynamic
coefficients; `clockwise` is not supplied. -/
noncomputable def sampleVehicleNoK : VehicleParams :=
  { propellers := [sampleProp], angles := [0], distances := [1] }

/-- A vehicle with mismatched sequence lengths: 1 propeller, 2 angles,
3 distances, 1 spin direction; no aerodynamic coefficients. -/
noncomputable def sampleVehicleMismatch : VehicleParams :=
  { propellers := [sampleProp], angles := [0, 1], distances := [1, 2, 3],
    clockwise := some [1] }

/-- A vehicle with a singular (all-zero) inertia matrix, `clockwise` not
supplied and every aerodynamic coefficient present. -/
noncomputable def sampleVehicleSingular : VehicleParams :=
  { propellers := [sampleProp2], angles := [0], distances := [1],
    inertia_matrix := 0 }

/-- The state `vehiclePostInit` produces for `sampleVehicleNoK`. -/
noncomputable def sampleStateNoK : VehicleState sampleVehicleNoK.propellers.length :=
  ⟨sampleVehicleNoK.inertia_matrix⁻¹, defaultClockwise 1, none, none⟩

/-- The allocation matrix `vehiclePostInit` builds for `sampleVehicleFull`. -/
noncomputable def sampleAlloc : Matrix (Fin 4) (Fin sampleVehicleFull.propellers.length) ℝ :=
  allocMatrix sampleVehicleFull.propellers
    (List.zipWith (· * ·) sampleVehicleFull.distances
      (sampleVehicleFull.angles.map Real.sin))
    (List.zipWith (· * ·) sampleVehicleFull.distances
      (sampleVehicleFull.angles.map Real.cos))
    (sampleVehicleFull.clockwise.getD
      (defaultClockwise sampleVehicleFull.propellers.length))

/-- The state `vehiclePostInit` produces for `sampleVehicleFull`. -/
noncomputable def sampleStateFull : VehicleState sampleVehicleFull.propellers.length :=
  ⟨sampleVehicleFull.inertia_matrix⁻¹,
   sampleVehicleFull.clockwise.getD
     (defaultClockwise sampleVehicleFull.propellers.length),
   some sampleAlloc, some (npPinv sampleAlloc)⟩

/-! ## Helper lemmas -/

lemma npLinalgInv_of_eq (M : Matrix (Fin 3) (Fin 3) ℝ) (h : M.det = 0) :
    npLinalgInv M = .error .singularMatrix := by
  simp [npLinalgInv, h]

lemma npLinalgInv_of_ne (M : Matrix (Fin 3) (Fin 3) ℝ) (h : M.det ≠ 0) :
    npLinalgInv M = .ok M⁻¹ := by
  simp [npLinalgInv, h]

lemma npLinalgInv_ok_iff (M N : Matrix (Fin 3) (Fin 3) ℝ) :
    npLinalgInv M = .ok N ↔ M.det ≠ 0 ∧ N = M⁻¹ := by
  by_cases h : M.det = 0 <;> simp [npLinalgInv, h, eq_comm]

lemma npMul_zip (a b : List ℝ) (h : a.length = b.length) :
    npMul a b = .ok (List.zipWith (· * ·) a b) := by
  simp [npMul, h]

lemma npSliceSet2_length (l : List ℤ) (s : ℕ) (v : ℤ) :
    (npSliceSet2 l s v).length = l.length := by
  simp [npSliceSet2]

lemma npSliceSet2_getD (l : List ℤ) (s : ℕ) (v : ℤ) (i : ℕ) (h : i < l.length) :
    (npSliceSet2 l s v).getD i 0
      = if s ≤ i ∧ (i - s) % 2 = 0 then v else l.getD i 0 := by
  have h' : i < (npSliceSet2 l s v).length := by rwa [npSliceSet2_length]
  rw [List.getD_eq_getElem _ _ h']
  simp [npSliceSet2]

lemma defaultClockwise_length (n : ℕ) : (defaultClockwise n).length = n := by
  simp [defaultClockwise, npSliceSet2_length]

lemma defaultClockwise_getD (n i : ℕ) (h : i < n) :
    (defaultClockwise n).getD i 0 = if i % 2 = 0 then 1 else -1 := by
  have h1 : i < (npSliceSet2 (List.replicate n 1) 0 1).length := by
    simp [npSliceSet2_length, h]
  have h2 : i < (List.replicate n (1 : ℤ)).length := by simp [h]
  rw [defaultClockwise, npSliceSet2_getD _ _ _ _ h1, npSliceSet2_getD _ _ _ _ h2]
  rcases Nat.even_or_odd i with he | ho
  · have hm : i % 2 = 0 := Nat.even_iff.mp he
    rw [if_pos hm]
    have hno : ¬ (1 ≤ i ∧ (i - 1) % 2 = 0) := by omega
    rw [if_neg hno]
    have hyes : 0 ≤ i ∧ (i - 0) % 2 = 0 := by omega
    rw [if_pos hyes]
  · have hm : i % 2 = 1 := Nat.odd_iff.mp ho
    have hm0 : ¬ i % 2 = 0 := by omega
    rw [if_neg hm0]
    have hyes : 1 ≤ i ∧ (i - 1) % 2 = 0 := by omega
    rw [if_pos hyes]

lemma kFull_true_iff (props : List PropellerParams) :
    kFull props = true ↔ allCoeffs props := by
  simp [kFull, allCoeffs, List.all_eq_true, Option.isSome_iff_ne_none]

lemma kFull_false_of_not (props : List PropellerParams)
    (h : ¬ allCoeffs props) : kFull props = false := by
  cases hb : kFull props with
  | false => rfl
  | true => exact absurd ((kFull_true_iff props).mp hb) h

lemma npLinalgInv_error_eq (M : Matrix (Fin 3) (Fin 3) ℝ) (e : NpError)
    (h : npLinalgInv M = .error e) : e = .singularMatrix := by
  by_cases hd : M.det = 0
  · rw [npLinalgInv_of_eq _ hd] at h
    injection h with h'
    exact h'.symm
  · rw [npLinalgInv_of_ne _ hd] at h
    cases h

lemma npMul_error_eq (a b : List ℝ) (e : NpError) (h : npMul a b = .error e) :
    e = .broadcastError := by
  unfold npMul at h
  split at h
  · cases h
  · split at h
    · cases h
    · split at h
      · cases h
      · injection h with h'
        exact h'.symm

lemma vehiclePostInit_singular (vp : VehicleParams)
    (h : vp.inertia_matrix.det = 0) :
    vehiclePostInit vp = .error .singularMatrix := by
  unfold vehiclePostInit
  rw [npLinalgInv_of_eq _ h]

lemma vehiclePostInit_noalloc (vp : VehicleParams)
    (hdet : vp.inertia_matrix.det ≠ 0) (hk : kFull vp.propellers = false) :
    vehiclePostInit vp
      = .ok ⟨vp.inertia_matrix⁻¹,
             vp.clockwise.getD (defaultClockwise vp.propellers.length),
             none, none⟩ := by
  unfold vehiclePostInit
  rw [npLinalgInv_of_ne _ hdet]
  simp [hk]

lemma vehiclePostInit_alloc (vp : VehicleParams)
    (hdet : vp.inertia_matrix.det ≠ 0) (hk : kFull vp.propellers = true)
    (ha : vp.angles.length = vp.propellers.length)
    (hdi : vp.distances.length = vp.propellers.length)
    (hcw : vp.propellers.length
      ≤ (vp.clockwise.getD (defaultClockwise vp.propellers.length)).length) :
    vehiclePostInit vp
      = .ok ⟨vp.inertia_matrix⁻¹,
             vp.clockwise.getD (defaultClockwise vp.propellers.length),
             some (allocMatrix vp.propellers
               (List.zipWith (· * ·) vp.distances (vp.angles.map Real.sin))
               (List.zipWith (· * ·) vp.distances (vp.angles.map Real.cos))
               (vp.clockwise.getD (defaultClockwise vp.propellers.length))),
             some (npPinv (allocMatrix vp.propellers
               (List.zipWith (· * ·) vp.distances (vp.angles.map Real.sin))
               (List.zipWith (· * ·) vp.distances (vp.angles.map Real.cos))
               (vp.clockwise.getD (defaultClockwise vp.propellers.length))))⟩ := by
  have hx := npMul_zip vp.distances (vp.angles.map Real.sin)
    (by simp [ha, hdi])
  have hy := npMul_zip vp.distances (vp.angles.map Real.cos)
    (by simp [ha, hdi])
  have hxlen : (List.zipWith (· * ·) vp.distances (vp.angles.map Real.sin)).length
      = vp.propellers.length := by
    simp [List.length_zipWith, ha, hdi]
  have hylen : (List.zipWith (· * ·) vp.distances (vp.angles.map Real.cos)).length
      = vp.propellers.length := by
    simp [List.length_zipWith, ha, hdi]
  unfold vehiclePostInit
  rw [npLinalgInv_of_ne _ hdet]
  simp only [hk, if_true, hx, hy]
  rw [if_pos ⟨hxlen.symm.le, hylen.symm.le, hcw⟩]

lemma vehiclePostInit_ok_cases (vp : VehicleParams)
    (s : VehicleState vp.propellers.length)
    (hok : vehiclePostInit vp = .ok s) :
    s.inertia_matrix_inverse = vp.inertia_matrix⁻¹ ∧
    s.clockwise = vp.clockwise.getD (defaultClockwise vp.propellers.length) ∧
    ((kFull vp.propellers = false ∧ s.alloc = none ∧ s.alloc_inverse = none) ∨
     (kFull vp.propellers = true ∧
       ∃ A, s.alloc = some A ∧ s.alloc_inverse = some (npPinv A))) := by
  unfold vehiclePostInit at hok
  cases hinv : npLinalgInv vp.inertia_matrix with
  | error e => rw [hinv] at hok; cases hok
  | ok iinv =>
    rw [hinv] at hok
    obtain ⟨hdet, rfl⟩ := (npLinalgInv_ok_iff _ _).mp hinv
    cases hkf : kFull vp.propellers with
    | false =>
      simp only [hkf, Bool.false_eq_true, if_false] at hok
      injection hok with h
      subst h
      exact ⟨rfl, rfl, Or.inl ⟨rfl, rfl, rfl⟩⟩
    | true =>
      simp only [hkf, if_true] at hok
      cases hxv : npMul vp.distances (vp.angles.map Real.sin) with
      | error e => simp only [hxv] at hok; cases hok
      | ok x =>
        simp only [hxv] at hok
        cases hyv : npMul vp.distances (vp.angles.map Real.cos) with
        | error e => simp only [hyv] at hok; cases hok
        | ok y =>
          simp only [hyv] at hok
          by_cases hlen : vp.propellers.length ≤ x.length ∧
              vp.propellers.length ≤ y.length ∧
              vp.propellers.length
                ≤ (vp.clockwise.getD (defaultClockwise vp.propellers.length)).length
          · rw [if_pos hlen] at hok
            injection hok with h
            subst h
            exact ⟨rfl, rfl, Or.inr ⟨rfl, _, rfl, rfl⟩⟩
          · rw [if_neg hlen] at hok; cases hok

lemma vehiclePostInit_ne_config (w : VehicleParams) :
    vehiclePostInit w ≠ .error .configurationError := by
  intro hcontra
  unfold vehiclePostInit at hcontra
  cases hinv : npLinalgInv w.inertia_matrix with
  | error e =>
    simp only [hinv] at hcontra
    have he := npLinalgInv_error_eq _ _ hinv
    rw [he] at hcontra
    injection hcontra with h2
    cases h2
  | ok iinv =>
    simp only [hinv] at hcontra
    cases hkf : kFull w.propellers with
    | false =>
      simp only [hkf, Bool.false_eq_true, if_false] at hcontra
      cases hcontra
    | true =>
      simp only [hkf, if_true] at hcontra
      cases hx : npMul w.distances (w.angles.map Real.sin) with
      | error e =>
        simp only [hx] at hcontra
        have hb := npMul_error_eq _ _ _ hx
        rw [hb] at hcontra
        injection hcontra with h2
        cases h2
      | ok x =>
        simp only [hx] at hcontra
        cases hy : npMul w.distances (w.angles.map Real.cos) with
        | error e =>
          simp only [hy] at hcontra
          have hb := npMul_error_eq _ _ _ hy
          rw [hb] at hcontra
          injection hcontra with h2
          cases h2
        | ok y =>
          simp only [hy] at hcontra
          by_cases hlen : w.propellers.length ≤ x.length ∧
              w.propellers.length ≤ y.length ∧
              w.propellers.length
                ≤ (w.clockwise.getD (defaultClockwise w.propellers.length)).length
          · rw [if_pos hlen] at hcontra
            cases hcontra
          · rw [if_neg hlen] at hcontra
            injection hcontra with h2
            cases h2

/-! ## Theorems -/

/-- C3: for positive diameter and pitch, the derived geometry satisfies
exactly `R = diameter * 0.0254`, `A = π R²`,
`theta0 = 2·atan2 (pitch) (2π·(3/4)·diameter/2)` and
`theta1 = −(4/3)·atan2 (pitch) (2π·(3/4)·diameter/2)`. -/
theorem prop_geometry_exact (p : PropellerParams)
    (hd : 0 < p.diameter) (hp : 0 < p.pitch) :
    (propPostInit p).R = p.diameter * 0.0254 ∧
    (propPostInit p).A = Real.pi * (propPostInit p).R ^ 2 ∧
    (propPostInit p).theta0
      = 2 * arctan2 p.pitch (2 * Real.pi * (3 / 4) * p.diameter / 2) ∧
    (propPostInit p).theta1
      = -(4 / 3) * arctan2 p.pitch (2 * Real.pi * (3 / 4) * p.diameter / 2) := by
  have harg : 2 * Real.pi * 3 / 4 * p.diameter / 2
      = 2 * Real.pi * (3 / 4) * p.diameter / 2 := by ring
  refine ⟨rfl, rfl, ?_, ?_⟩
  · simp only [propPostInit, harg]
  · simp only [propPostInit, harg]; ring

/-- Instantiation of `prop_geometry_exact` at the source's default propeller
(diameter 6, pitch 3). -/
theorem prop_geometry_exact_witness :
    (propPostInit sampleProp).R = sampleProp.diameter * 0.0254 ∧
    (propPostInit sampleProp).A = Real.pi * (propPostInit sampleProp).R ^ 2 ∧
    (propPostInit sampleProp).theta0
      = 2 * arctan2 sampleProp.pitch
          (2 * Real.pi * (3 / 4) * sampleProp.diameter / 2) ∧
    (propPostInit sampleProp).theta1
      = -(4 / 3) * arctan2 sampleProp.pitch
          (2 * Real.pi * (3 / 4) * sampleProp.diameter / 2) :=
  prop_geometry_exact sampleProp (by norm_num [sampleProp]) (by norm_num [sampleProp])

/-- C9: `theta0` and `theta1` are pure functions of `(diameter, pitch)`
alone — two propellers agreeing on diameter and pitch (whatever their other
fields) get identical derived pitch angles. -/
theorem theta_pure_function (p q : PropellerParams)
    (hd : 0 < p.diameter) (hp : 0 < p.pitch)
    (hdq : p.diameter = q.diameter) (hpq : p.pitch = q.pitch) :
    (propPostInit p).theta0 = (propPostInit q).theta0 ∧
    (propPostInit p).theta1 = (propPostInit q).theta1 := by
  constructor <;> simp only [propPostInit, hdq, hpq]

/-- Instantiation of `theta_pure_function` on two propellers sharing only
diameter and pitch (all other fields differ). -/
theorem theta_pure_function_witness :
    (propPostInit sampleProp).theta0 = (propPostInit sampleProp2).theta0 ∧
    (propPostInit sampleProp).theta1 = (propPostInit sampleProp2).theta1 :=
  theta_pure_function sampleProp sampleProp2
    (by norm_num [sampleProp]) (by norm_num [sampleProp]) rfl rfl

/-- C10: the taper is a fixed multiple of the root pitch angle,
`theta1 = −(2/3)·theta0`, for every propeller construction. -/
theorem theta_taper_ratio (p : PropellerParams) :
    (propPostInit p).theta1 = -(2 / 3) * (propPostInit p).theta0 := by
  simp only [propPostInit]; ring

/-- C4: construction fails with the singular-matrix error exactly when the
inertia matrix is singular; on an invertible inertia matrix every
successful construction satisfies
`inertia_matrix_inverse · inertia_matrix = 1`. -/
theorem inertia_inversion_spec (vp : VehicleParams) :
    (vp.inertia_matrix.det = 0 →
      vehiclePostInit vp = .error .singularMatrix) ∧
    (vp.inertia_matrix.det ≠ 0 → ∀ s, vehiclePostInit vp = .ok s →
      s.inertia_matrix_inverse * vp.inertia_matrix = 1) := by
  refine ⟨fun h => vehiclePostInit_singular vp h, fun hdet s hok => ?_⟩
  obtain ⟨hinv, -, -⟩ := vehiclePostInit_ok_cases vp s hok
  rw [hinv]
  exact Matrix.nonsing_inv_mul _ (isUnit_iff_ne_zero.mpr hdet)

/-- C2: in every successful construction `alloc` and `alloc_inverse` are
present exactly when every propeller has both coefficients; and when a
coefficient is missing the construction still succeeds (no error) with both
fields absent, never a partially filled matrix. -/
theorem alloc_both_or_neither (vp : VehicleParams)
    (hdet : vp.inertia_matrix.det ≠ 0) :
    (∀ s, vehiclePostInit vp = .ok s →
      (s.alloc ≠ none ↔ allCoeffs vp.propellers) ∧
      (s.alloc_inverse ≠ none ↔ allCoeffs vp.propellers)) ∧
    (¬ allCoeffs vp.propellers → ∃ s, vehiclePostInit vp = .ok s ∧
      s.alloc = none ∧ s.alloc_inverse = none) := by
  constructor
  · intro s hok
    obtain ⟨-, -, hcases⟩ := vehiclePostInit_ok_cases vp s hok
    rcases hcases with ⟨hkf, hn1, hn2⟩ | ⟨hkt, A, hA, hAi⟩
    · have hnk : ¬ allCoeffs vp.propellers := fun hc => by
        rw [(kFull_true_iff _).mpr hc] at hkf
        cases hkf
      constructor
      · rw [hn1]; simp [hnk]
      · rw [hn2]; simp [hnk]
    · have hk : allCoeffs vp.propellers := (kFull_true_iff _).mp hkt
      constructor
      · rw [hA]; simp [hk]
      · rw [hAi]; simp [hk]
  · intro hnk
    exact ⟨_, vehiclePostInit_noalloc vp hdet (kFull_false_of_not _ hnk),
      rfl, rfl⟩

/-- Instantiation of `alloc_both_or_neither` at a vehicle whose single
propeller lacks both coefficients. -/
theorem alloc_both_or_neither_witness :
    (∀ s, vehiclePostInit sampleVehicleNoK = .ok s →
      (s.alloc ≠ none ↔ allCoeffs sampleVehicleNoK.propellers) ∧
      (s.alloc_inverse ≠ none ↔ allCoeffs sampleVehicleNoK.propellers)) ∧
    (¬ allCoeffs sampleVehicleNoK.propellers →
      ∃ s, vehiclePostInit sampleVehicleNoK = .ok s ∧
        s.alloc = none ∧ s.alloc_inverse = none) :=
  alloc_both_or_neither sampleVehicleNoK
    (by simp [sampleVehicleNoK, Matrix.det_one])

/-- C5 counterexample: a vehicle with mismatched sequence lengths
(1 propeller, 2 angles, 3 distances, 1 spin direction) constructs
successfully — no `ConfigurationError` is raised and a model is returned. -/
theorem mismatched_lengths_no_error :
    sampleVehicleMismatch.propellers.length = 1 ∧
    sampleVehicleMismatch.angles.length = 2 ∧
    sampleVehicleMismatch.distances.length = 3 ∧
    (sampleVehicleMismatch.clockwise.getD []).length = 1 ∧
    ∃ s, vehiclePostInit sampleVehicleMismatch = Except.ok s := by
  refine ⟨rfl, rfl, rfl, rfl, ?_⟩
  exact ⟨_, vehiclePostInit_noalloc sampleVehicleMismatch
    (by simp [sampleVehicleMismatch, Matrix.det_one]) rfl⟩

/-- C5 amended: the construction performs no length validation at all — no
`ConfigurationError` exists in the source, no construction ever produces
one, and (whenever the inertia matrix is invertible and the allocation
branch is skipped for missing coefficients) construction succeeds even with
mismatched sequence lengths. -/
theorem no_length_validation (vp : VehicleParams)
    (hdet : vp.inertia_matrix.det ≠ 0)
    (hnk : ¬ allCoeffs vp.propellers) :
    (∃ s, vehiclePostInit vp = .ok s) ∧
    (∀ w : VehicleParams,
      vehiclePostInit w ≠ .error .configurationError) := by
  refine ⟨⟨_, vehiclePostInit_noalloc vp hdet (kFull_false_of_not _ hnk)⟩, ?_⟩
  exact fun w => vehiclePostInit_ne_config w

/-- Instantiation of `no_length_validation` at the mismatched-length
vehicle. -/
theorem no_length_validation_witness :
    (∃ s, vehiclePostInit sampleVehicleMismatch = .ok s) ∧
    (∀ w : VehicleParams,
      vehiclePostInit w ≠ .error .configurationError) :=
  no_length_validation sampleVehicleMismatch
    (by simp [sampleVehicleMismatch, Matrix.det_one])
    (by simp [allCoeffs, sampleVehicleMismatch, sampleProp])

/-- C7 counterexample: on a singular inertia matrix construction aborts
with the singular-matrix error even though `clockwise` is unsupplied and
every propeller has both coefficients — the spin-direction default and the
allocation construction are *not* performed (no state is produced). -/
theorem singular_inertia_aborts :
    sampleVehicleSingular.clockwise = none ∧
    allCoeffs sampleVehicleSingular.propellers ∧
    vehiclePostInit sampleVehicleSingular = .error .singularMatrix ∧
    ∀ s, vehiclePostInit sampleVehicleSingular ≠ .ok s := by
  have herr := vehiclePostInit_singular sampleVehicleSingular
    (by simp [sampleVehicleSingular])
  refine ⟨rfl, ?_, herr, fun s hs => by rw [herr] at hs; cases hs⟩
  simp [allCoeffs, sampleVehicleSingular, sampleProp2]

/-- C7 amended: the derivation steps are ordered and dependent, not
independent — a singular inertia matrix aborts the whole construction (no
spin-direction default, no allocation step is reached); only the
allocation step is individually skippable: missing coefficients skip it
silently while inertia inversion and the spin-direction default still
take effect. -/
theorem derivation_steps_ordered (vp : VehicleParams) :
    (vp.inertia_matrix.det = 0 →
      vehiclePostInit vp = .error .singularMatrix) ∧
    (vp.inertia_matrix.det ≠ 0 → ¬ allCoeffs vp.propellers →
      ∃ s, vehiclePostInit vp = .ok s ∧
        s.clockwise = vp.clockwise.getD (defaultClockwise vp.propellers.length) ∧
        s.alloc = none ∧ s.alloc_inverse = none) := by
  refine ⟨vehiclePostInit_singular vp, fun hdet hnk => ?_⟩
  exact ⟨_, vehiclePostInit_noalloc vp hdet (kFull_false_of_not _ hnk),
    rfl, rfl, rfl⟩

/-- C6: in every successful construction with `clockwise` unsupplied, the
derived spin directions have one entry per propeller, `+1` at index 0 and
every even index, `−1` at every odd index; for 4 propellers the default is
`[+1, −1, +1, −1]`. -/
theorem clockwise_default_spec (vp : VehicleParams)
    (s : VehicleState vp.propellers.length) (hcw : vp.clockwise = none)
    (hok : vehiclePostInit vp = .ok s) (i : ℕ)
    (hi : i < vp.propellers.length) :
    s.clockwise.length = vp.propellers.length ∧
    s.clockwise.getD i 0 = (if i % 2 = 0 then 1 else -1) ∧
    defaultClockwise 4 = [1, -1, 1, -1] := by
  obtain ⟨-, hcweq, -⟩ := vehiclePostInit_ok_cases vp s hok
  rw [hcweq, hcw]
  simp only [Option.getD_none]
  exact ⟨defaultClockwise_length _, defaultClockwise_getD _ _ hi, by decide⟩

/-- Instantiation of `clockwise_default_spec` at a one-propeller vehicle
with `clockwise` unsupplied. -/
theorem clockwise_default_spec_witness :
    sampleStateNoK.clockwise.length = sampleVehicleNoK.propellers.length ∧
    sampleStateNoK.clockwise.getD 0 0 = (if 0 % 2 = 0 then 1 else -1) ∧
    defaultClockwise 4 = [1, -1, 1, -1] :=
  clockwise_default_spec sampleVehicleNoK sampleStateNoK rfl
    (vehiclePostInit_noalloc sampleVehicleNoK
      (by simp [sampleVehicleNoK, Matrix.det_one]) rfl)
    0 (by simp [sampleVehicleNoK])

/-- C8: in every successful construction with every coefficient supplied,
`alloc` is a 4×N matrix (`N` the number of propellers), `alloc_inverse` is
its Moore–Penrose pseudoinverse, and the pseudoinverse idempotence law
`alloc · alloc_inverse · alloc = alloc` holds. -/
theorem alloc_pinv_idempotent (vp : VehicleParams)
    (s : VehicleState vp.propellers.length)
    (hok : vehiclePostInit vp = .ok s) (hk : allCoeffs vp.propellers) :
    ∃ M : Matrix (Fin 4) (Fin vp.propellers.length) ℝ,
      s.alloc = some M ∧ s.alloc_inverse = some (npPinv M) ∧
      M * npPinv M * M = M := by
  obtain ⟨-, -, hcases⟩ := vehiclePostInit_ok_cases vp s hok
  rcases hcases with ⟨hkf, -, -⟩ | ⟨-, A, hA, hAi⟩
  · rw [(kFull_true_iff _).mpr hk] at hkf
    cases hkf
  · exact ⟨A, hA, hAi, npPinv_law A⟩

/-- Instantiation of `alloc_pinv_idempotent` at a fully coefficiented
one-propeller vehicle. -/
theorem alloc_pinv_idempotent_witness :
    ∃ M : Matrix (Fin 4) (Fin sampleVehicleFull.propellers.length) ℝ,
      sampleStateFull.alloc = some M ∧
      sampleStateFull.alloc_inverse = some (npPinv M) ∧
      M * npPinv M * M = M :=
  alloc_pinv_idempotent sampleVehicleFull sampleStateFull
    (vehiclePostInit_alloc sampleVehicleFull
      (by simp [sampleVehicleFull, Matrix.det_one]) rfl rfl rfl (by decide))
    (by simp [allCoeffs, sampleVehicleFull, sampleProp2])

/-- C1: with every coefficient supplied (and sequence lengths that let the
construction succeed), the constructed `alloc` is the 4×N matrix whose
column `i` is `[−k_thrust_i, k_thrust_i·x_i, k_thrust_i·y_i,
k_torque_i·clockwise_i]` with `x_i = distances_i·sin(angles_i)` and
`y_i = distances_i·cos(angles_i)`. -/
theorem alloc_columns (vp : VehicleParams)
    (hdet : vp.inertia_matrix.det ≠ 0) (hk : allCoeffs vp.propellers)
    (ha : vp.angles.length = vp.propellers.length)
    (hdi : vp.distances.length = vp.propellers.length)
    (hcw : vp.propellers.length
      ≤ (vp.clockwise.getD (defaultClockwise vp.propellers.length)).length) :
    ∃ s, vehiclePostInit vp = .ok s ∧
      ∃ M : Matrix (Fin 4) (Fin vp.propellers.length) ℝ, s.alloc = some M ∧
        ∀ i : Fin vp.propellers.length, ∃ kt kq : ℝ,
          (vp.propellers.get i).k_thrust = some kt ∧
          (vp.propellers.get i).k_torque = some kq ∧
          (fun r => M r i) = ![ -kt,
            kt * (vp.distances.getD i 0 * Real.sin (vp.angles.getD i 0)),
            kt * (vp.distances.getD i 0 * Real.cos (vp.angles.getD i 0)),
            kq * (((vp.clockwise.getD
              (defaultClockwise vp.propellers.length)).getD i 0 : ℤ) : ℝ) ] := by
  have heq := vehiclePostInit_alloc vp hdet ((kFull_true_iff _).mpr hk) ha hdi hcw
  refine ⟨_, heq, _, rfl, ?_⟩
  intro i
  have hpmem : vp.propellers.get i ∈ vp.propellers := List.get_mem _ _ i.isLt
  obtain ⟨kt, hktv⟩ := Option.ne_none_iff_exists'.mp (hk.1 _ hpmem)
  obtain ⟨kq, hkqv⟩ := Option.ne_none_iff_exists'.mp (hk.2 _ hpmem)
  refine ⟨kt, kq, hktv, hkqv, ?_⟩
  have hi1 : (i : ℕ) < vp.distances.length := by rw [hdi]; exact i.isLt
  have hi2 : (i : ℕ) < vp.angles.length := by rw [ha]; exact i.isLt
  have hxi : (List.zipWith (· * ·) vp.distances
        (vp.angles.map Real.sin)).getD i 0
      = vp.distances.getD i 0 * Real.sin (vp.angles.getD i 0) := by
    have hiz : (i : ℕ) < (List.zipWith (· * ·) vp.distances
        (vp.angles.map Real.sin)).length := by
      simp only [List.length_zipWith, List.length_map]
      omega
    rw [List.getD_eq_getElem _ _ hiz, List.getElem_zipWith,
      List.getD_eq_getElem _ _ hi1, List.getD_eq_getElem _ _ hi2,
      List.getElem_map]
  have hyi : (List.zipWith (· * ·) vp.distances
        (vp.angles.map Real.cos)).getD i 0
      = vp.distances.getD i 0 * Real.cos (vp.angles.getD i 0) := by
    have hiz : (i : ℕ) < (List.zipWith (· * ·) vp.distances
        (vp.angles.map Real.cos)).length := by
      simp only [List.length_zipWith, List.length_map]
      omega
    rw [List.getD_eq_getElem _ _ hiz, List.getElem_zipWith,
      List.getD_eq_getElem _ _ hi1, List.getD_eq_getElem _ _ hi2,
      List.getElem_map]
  funext r
  simp only [allocMatrix, Matrix.of_apply, hktv, hkqv, Option.getD_some,
    hxi, hyi]

/-- Instantiation of `alloc_columns` at a fully coefficiented one-propeller
vehicle. -/
theorem alloc_columns_witness :
    ∃ s, vehiclePostInit sampleVehicleFull = .ok s ∧
      ∃ M : Matrix (Fin 4) (Fin sampleVehicleFull.propellers.length) ℝ,
        s.alloc = some M ∧
        ∀ i : Fin sampleVehicleFull.propellers.length, ∃ kt kq : ℝ,
          (sampleVehicleFull.propellers.get i).k_thrust = some kt ∧
          (sampleVehicleFull.propellers.get i).k_torque = some kq ∧
          (fun r => M r i) = ![ -kt,
            kt * (sampleVehicleFull.distances.getD i 0
              * Real.sin (sampleVehicleFull.angles.getD i 0)),
            kt * (sampleVehicleFull.distances.getD i 0
              * Real.cos (sampleVehicleFull.angles.getD i 0)),
            kq * (((sampleVehicleFull.clockwise.getD
              (defaultClockwise sampleVehicleFull.propellers.length)).getD i 0
                : ℤ) : ℝ) ] :=
  alloc_columns sampleVehicleFull
    (by simp [sampleVehicleFull, Matrix.det_one])
    (by simp [allCoeffs, sampleVehicleFull, sampleProp2])
    rfl rfl (by decide)

end Multirotor
